import Mathlib

/-!
Verification of the ring_hash load-balancing policy
(src/core/ext/filters/client_channel/lb_policy/ring_hash/ring_hash.cc).

The development shallowly embeds the pure algorithmic core of the policy:

* the Ketama binary search of `RingHash::Picker::Pick` (lines 386-409);
* the connectivity-policy part of `Pick` (`ConnectAndPickHelper` and the
  fallback walk, lines 347-473);
* the state counters (`UpdateStateCountersLocked`, lines 496-524), the
  per-endpoint latch update (`UpdateConnectivityStateLocked`, lines 579-612),
  the aggregation rule (`UpdateRingHashConnectivityStateLocked`,
  lines 528-573), the per-callback processing
  (`ProcessConnectivityChangeLocked`, lines 614-657) and the initial watch
  (`StartWatchingLocked`, lines 479-494);
* the contract of the `std::sort` call that orders the ring (lines 331-334).

Machine integers (`uint64_t`, `size_t`, `int64_t`) are modelled as `Nat`/`Int`;
all quantities stay far below 2^64 in the modelled code paths, so no wrap-around
occurs.  Connectivity states exclude SHUTDOWN, which the code asserts never
reaches these functions (`GPR_ASSERT` in `UpdateStateCountersLocked`).
-/

namespace RingHashLb

/-- The four connectivity states handled by the policy.  SHUTDOWN is excluded:
the code asserts (lines 498-499) that it never enters the state counters. -/
inductive ConnState where
  | idle
  | connecting
  | ready
  | transientFailure
deriving DecidableEq, Repr

/-- One ring entry: `RingEntry` from the source (lines 169-173): a 64-bit
hash, a subchannel reference (modelled as a numeric identity), and the
connectivity state captured when the picker was constructed. -/
structure RingEntry where
  hash : Nat
  subchannel : Nat
  state : ConnState
deriving DecidableEq, Repr

/-- Placeholder entry used to totalize list indexing; all modelled accesses
are within bounds. -/
def defaultEntry : RingEntry := ⟨0, 0, ConnState.idle⟩

/-- `ring_[i].hash` (in-bounds in all modelled accesses). -/
def hashAt (ring : List RingEntry) (i : Nat) : Nat :=
  (ring.getD i defaultEntry).hash

/-- `ring_[i]` (in-bounds in all modelled accesses). -/
def entryAt (ring : List RingEntry) (i : Nat) : RingEntry :=
  ring.getD i defaultEntry

/-!
## Step A of `Pick`: the Ketama binary search (lines 386-409)

The C++ loop uses signed 64-bit `lowp`, `highp`, `first_index`; all values
stay in `[-1, ring.size()]`, far from overflow, so `Int` is a faithful model.
The loop is modelled with a fuel parameter; `ketamaGo` returns `none` on fuel
exhaustion, and the fuel passed by `ketamaSearch` is proved sufficient (the
correctness theorem concludes `= some _`).
-/

/-- One execution of the `while (true)` loop body of lines 389-409, with
fuel.  Mirrors the source exactly: compute `first_index = (lowp + highp) / 2`;
if it equals `ring_.size()` wrap to 0; otherwise read `midval`/`midval1`,
terminate when `midval1 < h ≤ midval`, narrow `[lowp, highp]` and wrap to 0
when `lowp > highp`. -/
def ketamaGo (ring : List RingEntry) (h : Nat) : Nat → Int → Int → Option Nat
  | 0, _, _ => none
  | fuel + 1, lowp, highp =>
    let n : Int := (ring.length : Int)
    let mid : Int := (lowp + highp) / 2
    if mid = n then some 0
    else
      let midval : Nat := hashAt ring mid.toNat
      let midval1 : Nat := if mid = 0 then 0 else hashAt ring (mid.toNat - 1)
      if h ≤ midval ∧ midval1 < h then some mid.toNat
      else
        let lowp' : Int := if midval < h then mid + 1 else lowp
        let highp' : Int := if midval < h then highp else mid - 1
        if highp' < lowp' then some 0
        else ketamaGo ring h fuel lowp' highp'

/-- The Ketama binary search of lines 386-409: `lowp = 0`,
`highp = ring_.size()`.  The fuel `ring.length + 2` is sufficient (proved in
the correctness theorem). -/
def ketamaSearch (ring : List RingEntry) (h : Nat) : Option Nat :=
  ketamaGo ring h (ring.length + 2) 0 (ring.length : Int)

/-- Spec-side definition (from the spec's words, for the refinement claim
about Step A): the index of the first ring entry whose hash is ≥ `h`, if
any. -/
def firstIndexGe : List RingEntry → Nat → Option Nat
  | [], _ => none
  | e :: rest, h =>
    if h ≤ e.hash then some 0 else (firstIndexGe rest h).map (· + 1)

/-- Spec-side definition: Step A's overall selection, including wrap-around
to index 0 when no entry's hash is ≥ `h`. -/
def ringLookup (ring : List RingEntry) (h : Nat) : Nat :=
  (firstIndexGe ring h).getD 0

/-- The sortedness invariant of the ring: ascending by hash. -/
def SortedByHash (ring : List RingEntry) : Prop :=
  List.Pairwise (fun a b => a.hash ≤ b.hash) ring

instance : DecidablePred SortedByHash := fun ring =>
  List.instDecidablePairwise ring

end RingHashLb

namespace RingHashLb

theorem hashAt_cons_succ (e : RingEntry) (rest : List RingEntry) (j : Nat) :
    hashAt (e :: rest) (j + 1) = hashAt rest j := rfl

theorem hashAt_eq_getElem (ring : List RingEntry) (i : Nat)
    (hi : i < ring.length) : hashAt ring i = ring[i].hash := by
  unfold hashAt
  rw [List.getD_eq_getElem _ _ hi]

theorem firstIndexGe_eq_some_of (ring : List RingEntry) (h i : Nat)
    (hi : i < ring.length) (hge : h ≤ hashAt ring i)
    (hlt : ∀ j, j < i → hashAt ring j < h) :
    firstIndexGe ring h = some i := by
  induction ring generalizing i with
  | nil => simp at hi
  | cons e rest ih =>
    cases i with
    | zero =>
      have hge0 : h ≤ e.hash := hge
      simp [firstIndexGe, hge0]
    | succ j =>
      have hhead : hashAt (e :: rest) 0 < h := hlt 0 (Nat.succ_pos j)
      have hhead' : e.hash < h := hhead
      have hrest : firstIndexGe rest h = some j := by
        refine ih j (by simpa using hi) (by simpa [hashAt_cons_succ] using hge) ?_
        intro k hk
        have := hlt (k + 1) (Nat.succ_lt_succ hk)
        simpa [hashAt_cons_succ] using this
      simp [firstIndexGe, Nat.not_le.mpr hhead', hrest]

theorem firstIndexGe_none_iff (ring : List RingEntry) (h : Nat) :
    firstIndexGe ring h = none ↔ ∀ e ∈ ring, e.hash < h := by
  induction ring with
  | nil => simp [firstIndexGe]
  | cons e rest ih =>
    by_cases hge : h ≤ e.hash
    · simp [firstIndexGe, hge]
    · simp [firstIndexGe, hge, ih, Nat.lt_of_not_le hge]

theorem firstIndexGe_eq_none_of (ring : List RingEntry) (h : Nat)
    (hall : ∀ j, j < ring.length → hashAt ring j < h) :
    firstIndexGe ring h = none := by
  rw [firstIndexGe_none_iff]
  intro e he
  obtain ⟨i, hi, rfl⟩ := List.mem_iff_getElem.mp he
  have := hall i hi
  rwa [hashAt_eq_getElem _ _ hi] at this

theorem sorted_hashAt_mono (ring : List RingEntry) (hs : SortedByHash ring)
    {i j : Nat} (hij : i ≤ j) (hj : j < ring.length) :
    hashAt ring i ≤ hashAt ring j := by
  rcases Nat.eq_or_lt_of_le hij with rfl | hlt
  · exact Nat.le_refl _
  · have hi : i < ring.length := Nat.lt_trans hlt hj
    have hrel := List.pairwise_iff_get.mp hs ⟨i, hi⟩ ⟨j, hj⟩ hlt
    rw [hashAt_eq_getElem _ _ hi, hashAt_eq_getElem _ _ hj]
    simpa [List.get_eq_getElem] using hrel

end RingHashLb

namespace RingHashLb

theorem ketamaGo_correct (ring : List RingEntry) (h : Nat)
    (hs : SortedByHash ring) (hne : ring ≠ []) (fuel : Nat) :
    ∀ lowp highp : Int,
      0 ≤ lowp → lowp ≤ highp → highp ≤ (ring.length : Int) →
      (∀ j : Nat, (j : Int) < lowp → hashAt ring j < h) →
      (∀ j : Nat, highp ≤ (j : Int) → j < ring.length → h ≤ hashAt ring j) →
      (highp - lowp).toNat < fuel →
      ketamaGo ring h fuel lowp highp = some (ringLookup ring h) := by
  induction fuel with
  | zero =>
    intro lowp highp _ _ _ _ _ hfuel
    omega
  | succ fuel ih =>
    intro lowp highp hl0 hlh hhn hI1 hI2 hfuel
    have hlen : 0 < ring.length := List.length_pos.mpr hne
    have hmidlo : lowp ≤ (lowp + highp) / 2 := by omega
    have hmidhi : (lowp + highp) / 2 ≤ highp := by omega
    by_cases hmn : (lowp + highp) / 2 = (ring.length : Int)
    · -- the midpoint reached ring_.size(): every entry hashes below h, wrap to 0
      have hlow : lowp = (ring.length : Int) := by omega
      have hnone : firstIndexGe ring h = none := by
        apply firstIndexGe_eq_none_of
        intro j hj
        exact hI1 j (by omega)
      simp only [ketamaGo]
      rw [if_pos hmn]
      simp [ringLookup, hnone]
    · have hmidnat : ((lowp + highp) / 2).toNat < ring.length := by omega
      simp only [ketamaGo]
      rw [if_neg hmn]
      by_cases hlt : hashAt ring ((lowp + highp) / 2).toNat < h
      · -- midval < h: move lowp up
        rw [if_neg (fun hc => (Nat.not_le.mpr hlt) hc.1)]
        rw [if_pos hlt, if_pos hlt]
        by_cases hguard : highp < (lowp + highp) / 2 + 1
        · -- would break with lowp > highp: impossible, since I2 pins hash at mid
          exact absurd (hI2 ((lowp + highp) / 2).toNat (by omega) hmidnat)
            (Nat.not_le.mpr hlt)
        · rw [if_neg hguard]
          apply ih ((lowp + highp) / 2 + 1) highp (by omega) (by omega) hhn ?_ hI2
            (by omega)
          intro j hj
          rcases lt_or_le (j : Int) lowp with hc | hc
          · exact hI1 j hc
          · have hjle : j ≤ ((lowp + highp) / 2).toNat := by omega
            have hmono := sorted_hashAt_mono ring hs hjle hmidnat
            omega
      · -- h ≤ midval
        have hge : h ≤ hashAt ring ((lowp + highp) / 2).toNat := Nat.le_of_not_lt hlt
        by_cases hm0 : (lowp + highp) / 2 = 0
        · rw [if_pos hm0]
          by_cases hpos : 0 < h
          · rw [if_pos ⟨hge, hpos⟩]
            have hsome : firstIndexGe ring h = some (((lowp + highp) / 2).toNat) := by
              apply firstIndexGe_eq_some_of _ _ _ hmidnat hge
              intro j hj
              exact absurd hj (by omega)
            simp [ringLookup, hsome]
          · rw [if_neg (fun hc => hpos hc.2)]
            rw [if_neg hlt, if_neg hlt]
            by_cases hguard : (lowp + highp) / 2 - 1 < lowp
            · rw [if_pos hguard]
              have hh0 : h = 0 := by omega
              have hsome : firstIndexGe ring h = some 0 := by
                apply firstIndexGe_eq_some_of _ _ _ hlen (by omega)
                intro j hj
                exact absurd hj (by omega)
              simp [ringLookup, hsome]
            · rw [if_neg hguard]
              apply ih lowp ((lowp + highp) / 2 - 1) hl0 (by omega) (by omega) hI1 ?_
                (by omega)
              intro j _ _
              omega
        · rw [if_neg hm0]
          by_cases hm1 : hashAt ring (((lowp + highp) / 2).toNat - 1) < h
          · rw [if_pos ⟨hge, hm1⟩]
            have hsome : firstIndexGe ring h = some (((lowp + highp) / 2).toNat) := by
              apply firstIndexGe_eq_some_of _ _ _ hmidnat hge
              intro j hj
              have hmono := sorted_hashAt_mono ring hs
                (show j ≤ ((lowp + highp) / 2).toNat - 1 by omega)
                (show ((lowp + highp) / 2).toNat - 1 < ring.length by omega)
              omega
            simp [ringLookup, hsome]
          · rw [if_neg (fun hc => hm1 hc.2)]
            rw [if_neg hlt, if_neg hlt]
            by_cases hguard : (lowp + highp) / 2 - 1 < lowp
            · -- would break with lowp > highp: impossible, I1 contradicts h ≤ midval1
              exact absurd (hI1 (((lowp + highp) / 2).toNat - 1) (by omega)) hm1
            · rw [if_neg hguard]
              apply ih lowp ((lowp + highp) / 2 - 1) hl0 (by omega) (by omega) hI1 ?_
                (by omega)
              intro j hj1 hj2
              have hj1' : ((lowp + highp) / 2).toNat - 1 ≤ j := by omega
              have hmono := sorted_hashAt_mono ring hs hj1' hj2
              omega

end RingHashLb

namespace RingHashLb

/-- **C1**: For every non-empty sorted ring and every 64-bit hash `h`, Step A
of `Pick` (the Ketama binary search of lines 386-409) selects the first ring
entry whose hash is ≥ `h`, and selects ring index 0 when `h` exceeds the
maximum hash on the ring (wrap-around): the search result equals
`firstIndexGe` when some entry's hash is ≥ `h`, and `firstIndexGe` is empty —
in which case the search yields index 0 — exactly when every entry's hash is
below `h`. -/
theorem ketama_binary_search_selects_first_ge (ring : List RingEntry) (h : Nat)
    (hne : ring ≠ []) (hs : SortedByHash ring) :
    ketamaSearch ring h = some (ringLookup ring h) ∧
    (∀ i, firstIndexGe ring h = some i → ketamaSearch ring h = some i) ∧
    (firstIndexGe ring h = none ↔ ∀ e ∈ ring, e.hash < h) := by
  have hmain : ketamaSearch ring h = some (ringLookup ring h) := by
    apply ketamaGo_correct ring h hs hne (ring.length + 2) 0 (ring.length : Int)
      (by omega) (by omega) (by omega)
    · intro j hj
      exact absurd hj (by omega)
    · intro j hj1 hj2
      omega
    · omega
  refine ⟨hmain, ?_, firstIndexGe_none_iff ring h⟩
  intro i hi
  rw [hmain, ringLookup, hi]
  rfl

/-- Witness for C1: on the concrete sorted two-entry ring with hashes 10 and
20, searching for 15 selects index 1, the first entry with hash ≥ 15. -/
theorem ketama_binary_search_selects_first_ge_witness :
    ketamaSearch [⟨10, 0, ConnState.ready⟩, ⟨20, 1, ConnState.ready⟩] 15 =
      some (ringLookup [⟨10, 0, ConnState.ready⟩, ⟨20, 1, ConnState.ready⟩] 15) ∧
    (∀ i, firstIndexGe [⟨10, 0, ConnState.ready⟩, ⟨20, 1, ConnState.ready⟩] 15 =
        some i →
      ketamaSearch [⟨10, 0, ConnState.ready⟩, ⟨20, 1, ConnState.ready⟩] 15 =
        some i) ∧
    (firstIndexGe [⟨10, 0, ConnState.ready⟩, ⟨20, 1, ConnState.ready⟩] 15 =
        none ↔
      ∀ e ∈ [⟨10, 0, ConnState.ready⟩, ⟨20, 1, ConnState.ready⟩],
        RingEntry.hash e < 15) :=
  ketama_binary_search_selects_first_ge _ 15 (by decide) (by decide)

end RingHashLb

namespace RingHashLb

/-!
## Step B/C of `Pick`: connectivity policy and fallback walk (lines 347-473)

`PickResult` is modelled with the fields the code sets: the result type, the
chosen subchannel (when COMPLETE) and the error (status code and message,
when FAILED).  The only side effect of `Pick` — the set of subchannels handed
to `SubchannelConnectionAttempter` via
`ScheduleSubchannelConnectionAttempt` — is returned alongside the result, in
scheduling order.
-/

/-- The grpc status codes attached to errors in the modelled code paths. -/
inductive GrpcStatus where
  | internal
  | unavailable
deriving DecidableEq, Repr

/-- `PickResult::ResultType` (the three used constructors). -/
inductive PickResultType where
  | complete
  | queue
  | failed
deriving DecidableEq, Repr

/-- The observable content of a `PickResult`. -/
structure PickOutcome where
  type : PickResultType
  subchannel : Option Nat
  errorStatus : Option GrpcStatus
  errorMsg : Option String
deriving DecidableEq, Repr

/-- The freshly initialized result of line 371: `PICK_FAILED`, nothing else
set. -/
def initialResult : PickOutcome := ⟨PickResultType.failed, none, none, none⟩

/-- The error built at lines 375-380 when `absl::SimpleAtoi` fails on the
`request_ring_hash` call attribute. -/
def hashParseError : PickOutcome :=
  ⟨PickResultType.failed, none, some GrpcStatus.internal,
    some "xds ring hash value is not a number"⟩

/-- The exhaustion error built at lines 466-471 when the fallback walk finds
no usable subchannel. -/
def exhaustionError : PickOutcome :=
  ⟨PickResultType.failed, none, some GrpcStatus.internal,
    some "xds ring hash found a subchannel that is in TRANSIENT_FAILURE state"⟩

/-- `ConnectAndPickHelper` (lines 347-366), applied to the freshly
initialized result: returns the updated result and whether a connection
attempt is needed. -/
def connectAndPickHelper (entry : RingEntry) : PickOutcome × Bool :=
  if entry.state = ConnState.ready then
    (⟨PickResultType.complete, some entry.subchannel, none, none⟩, false)
  else if entry.state = ConnState.idle then
    ({ initialResult with type := PickResultType.queue }, true)
  else if entry.state = ConnState.connecting then
    ({ initialResult with type := PickResultType.queue }, false)
  else
    (initialResult, true)

/-- The fallback walk of lines 432-465: iterate `i = 1 .. ring.size()-1`
over `ring_[(first_index + i) % ring_.size()]`, skipping entries whose
subchannel is the initially chosen one; READY completes, CONNECTING before a
second distinct subchannel queues, and IDLE / TRANSIENT_FAILURE entries
before the first non-failed one get connection attempts scheduled.  The
`remaining` fuel counts the loop iterations left (`ring.size() - i`). -/
def pickWalk (ring : List RingEntry) (firstIndex firstChannel : Nat) :
    Nat → Nat → Bool → Bool → List Nat → PickOutcome × List Nat
  | _, 0, _, _, attempts => (exhaustionError, attempts)
  | i, remaining + 1, foundSecond, foundFirstNonFailed, attempts =>
    let entry := entryAt ring ((firstIndex + i) % ring.length)
    if entry.subchannel = firstChannel then
      pickWalk ring firstIndex firstChannel (i + 1) remaining foundSecond
        foundFirstNonFailed attempts
    else if entry.state = ConnState.ready then
      (⟨PickResultType.complete, some entry.subchannel, none, none⟩, attempts)
    else if entry.state = ConnState.connecting ∧ foundSecond = false then
      ({ initialResult with type := PickResultType.queue }, attempts)
    else if foundFirstNonFailed = false then
      if entry.state = ConnState.transientFailure then
        pickWalk ring firstIndex firstChannel (i + 1) remaining true
          foundFirstNonFailed (attempts ++ [entry.subchannel])
      else if entry.state = ConnState.idle then
        pickWalk ring firstIndex firstChannel (i + 1) remaining true true
          (attempts ++ [entry.subchannel])
      else
        pickWalk ring firstIndex firstChannel (i + 1) remaining true true
          attempts
    else
      pickWalk ring firstIndex firstChannel (i + 1) remaining true
        foundFirstNonFailed attempts

/-- `RingHash::Picker::Pick` (lines 368-473) after the hash attribute has
been parsed into `h`: Step A (Ketama search), Step B (`ConnectAndPickHelper`
on the chosen entry, scheduling a connection attempt when requested), and
Step C (the fallback walk) when the result is still `PICK_FAILED`.  Returns
the result together with the subchannels scheduled for connection
attempts. -/
def pick (ring : List RingEntry) (h : Nat) : PickOutcome × List Nat :=
  let firstIndex := (ketamaSearch ring h).getD 0
  let firstEntry := entryAt ring firstIndex
  let step := connectAndPickHelper firstEntry
  let attempts := if step.2 then [firstEntry.subchannel] else []
  if step.1.type ≠ PickResultType.failed then (step.1, attempts)
  else
    pickWalk ring firstIndex firstEntry.subchannel 1 (ring.length - 1)
      false false attempts

/-- `RingHash::Picker::Pick` including the parse of the `request_ring_hash`
call attribute (lines 372-381): `parsedHash` is the result of
`absl::SimpleAtoi` on the attribute value (`none` when the attribute is
missing or not an unsigned 64-bit decimal integer). -/
def pickTop (parsedHash : Option Nat) (ring : List RingEntry) :
    PickOutcome × List Nat :=
  match parsedHash with
  | none => (hashParseError, [])
  | some h => pick ring h

end RingHashLb

namespace RingHashLb

/-- `kRequestRingHashAttribute` (line 44 of the source): the name of the
call attribute carrying the request hash. -/
def kRequestRingHashAttribute : String := "request_ring_hash"

theorem pickWalk_failed_eq (ring : List RingEntry) (firstIndex firstChannel : Nat) :
    ∀ (remaining i : Nat) (fs fnf : Bool) (attempts : List Nat),
      (pickWalk ring firstIndex firstChannel i remaining fs fnf attempts).1.type =
        PickResultType.failed →
      (pickWalk ring firstIndex firstChannel i remaining fs fnf attempts).1 =
        exhaustionError := by
  intro remaining
  induction remaining with
  | zero =>
    intro i fs fnf attempts _
    rfl
  | succ rem ih =>
    intro i fs fnf attempts hfail
    simp only [pickWalk] at hfail ⊢
    split_ifs at hfail ⊢
    all_goals exact ih _ _ _ _ hfail

theorem pick_failed_eq (ring : List RingEntry) (h : Nat)
    (hfail : (pick ring h).1.type = PickResultType.failed) :
    (pick ring h).1 = exhaustionError := by
  simp only [pick] at hfail ⊢
  by_cases hstep :
      (connectAndPickHelper (entryAt ring ((ketamaSearch ring h).getD 0))).1.type =
        PickResultType.failed
  · rw [if_neg (not_not_intro hstep)] at hfail ⊢
    exact pickWalk_failed_eq ring _ _ _ _ _ _ _ hfail
  · rw [if_pos hstep] at hfail
    exact absurd hfail hstep

end RingHashLb

namespace RingHashLb

/-- **C5 counterexample**: on a ring whose two entries (distinct
subchannels) are both in TRANSIENT_FAILURE, the fallback walk completes
without producing COMPLETE or QUEUE, yet the returned FAIL carries grpc
status INTERNAL (lines 466-471), not UNAVAILABLE as the claim states. -/
theorem pick_exhaustion_not_unavailable_counterexample :
    (pick [⟨10, 0, ConnState.transientFailure⟩,
           ⟨20, 1, ConnState.transientFailure⟩] 5).1.type =
        PickResultType.failed ∧
    (pick [⟨10, 0, ConnState.transientFailure⟩,
           ⟨20, 1, ConnState.transientFailure⟩] 5).1.errorStatus ≠
        some GrpcStatus.unavailable ∧
    (pick [⟨10, 0, ConnState.transientFailure⟩,
           ⟨20, 1, ConnState.transientFailure⟩] 5).1.errorStatus =
        some GrpcStatus.internal := by
  refine ⟨rfl, ?_, rfl⟩
  decide

/-- **C5 (amended)**: for every pick whose fallback walk completes without
producing COMPLETE or QUEUE, `Pick` returns FAIL with status INTERNAL — not
UNAVAILABLE — and a message naming the transient-failure exhaustion. -/
theorem pick_exhaustion_returns_internal (ring : List RingEntry) (h : Nat)
    (hfail : (pick ring h).1.type = PickResultType.failed) :
    (pick ring h).1.errorStatus = some GrpcStatus.internal ∧
    (pick ring h).1.errorMsg =
      some "xds ring hash found a subchannel that is in TRANSIENT_FAILURE state" := by
  rw [pick_failed_eq ring h hfail]
  exact ⟨rfl, rfl⟩

/-- Witness for the amended C5 at the concrete all-TRANSIENT_FAILURE ring. -/
theorem pick_exhaustion_returns_internal_witness :
    (pick [⟨10, 0, ConnState.transientFailure⟩,
           ⟨20, 1, ConnState.transientFailure⟩] 5).1.errorStatus =
        some GrpcStatus.internal ∧
    (pick [⟨10, 0, ConnState.transientFailure⟩,
           ⟨20, 1, ConnState.transientFailure⟩] 5).1.errorMsg =
      some "xds ring hash found a subchannel that is in TRANSIENT_FAILURE state" :=
  pick_exhaustion_returns_internal _ 5 rfl

/-- **C9 counterexample**: when the `request_ring_hash` attribute fails to
parse, the pick does FAIL with an INTERNAL error and schedules no
connection attempts, but the error message (line 378) is
"xds ring hash value is not a number", which does not name the
`request_ring_hash` attribute (the attribute name does not occur in it). -/
theorem pick_parse_error_message_counterexample :
    (pickTop none [⟨10, 0, ConnState.ready⟩]).1.type = PickResultType.failed ∧
    (pickTop none [⟨10, 0, ConnState.ready⟩]).1.errorStatus =
        some GrpcStatus.internal ∧
    (pickTop none [⟨10, 0, ConnState.ready⟩]).2 = [] ∧
    ¬ List.IsInfix kRequestRingHashAttribute.data
        (((pickTop none [⟨10, 0, ConnState.ready⟩]).1.errorMsg.getD "").data) := by
  refine ⟨rfl, rfl, rfl, ?_⟩
  intro hinf
  have hq : 'q' ∈ kRequestRingHashAttribute.data := by decide
  have hmem : 'q' ∈ (((pickTop none [⟨10, 0, ConnState.ready⟩]).1.errorMsg.getD
      "").data) := hinf.subset hq
  exact absurd hmem (by decide)

/-- **C9 (amended)**: for every pick whose `request_ring_hash` call
attribute is missing or not an unsigned 64-bit decimal integer, `Pick`
returns FAIL with an INTERNAL-status error whose message states that the
ring hash value is not a number (it does not name the attribute), and it
schedules no connection attempts — the pick mutates no policy state. -/
theorem pick_parse_failure_fails_internal (ring : List RingEntry) :
    pickTop none ring =
      (⟨PickResultType.failed, none, some GrpcStatus.internal,
        some "xds ring hash value is not a number"⟩, []) := rfl

/-- Running a sequence of picks on one picker snapshot: each pick reads the
immutable ring and only accumulates scheduled connection attempts
(`SubchannelConnectionAttempter`), which never feed back into the
snapshot. -/
def runPicks (ring : List RingEntry) :
    List Nat → List Nat → List PickOutcome × List Nat
  | [], attempts => ([], attempts)
  | h :: rest, attempts =>
    let step := pick ring h
    let r := runPicks ring rest (attempts ++ step.2)
    (step.1 :: r.1, r.2)

theorem runPicks_results (ring : List RingEntry) :
    ∀ (hs : List Nat) (attempts : List Nat),
      (runPicks ring hs attempts).1 = hs.map (fun h => (pick ring h).1) := by
  intro hs
  induction hs with
  | nil => intro attempts; rfl
  | cons h rest ih =>
    intro attempts
    simp only [runPicks, List.map_cons, ih]

/-- **C10**: for a fixed picker (fixed ring snapshot with the connectivity
states captured at construction), pick is deterministic: in any sequence of
picks on the same picker, each result depends only on its own hash — the
accumulated side effects of earlier picks never change a result — and `n`
repeated picks of the same hash `h` all return the result (hence the
endpoint) of the single `pick ring h`. -/
theorem pick_deterministic_on_fixed_picker (ring : List RingEntry)
    (hs : List Nat) (attempts : List Nat) (h : Nat) (n : Nat) :
    (runPicks ring hs attempts).1 = hs.map (fun h => (pick ring h).1) ∧
    (runPicks ring (List.replicate n h) attempts).1 =
      List.replicate n (pick ring h).1 := by
  refine ⟨runPicks_results ring hs attempts, ?_⟩
  rw [runPicks_results ring (List.replicate n h) attempts, List.map_replicate]

end RingHashLb

namespace RingHashLb

/-!
## Control plane: counters, latch, aggregation (lines 479-657)
-/

/-- The four per-state population counters of `RingHashSubchannelList`
(lines 155-158). -/
structure Counters where
  numIdle : Nat
  numReady : Nat
  numConnecting : Nat
  numTransientFailure : Nat
deriving DecidableEq, Repr

/-- The per-endpoint record of `RingHashSubchannelData` (lines 115-117):
`last_connectivity_state_` (initially IDLE) and the
`seen_failure_since_ready_` latch (initially false). -/
structure EndpointRec where
  lastState : ConnState
  latch : Bool
deriving DecidableEq, Repr

/-- The initial per-endpoint record (lines 116-117). -/
def defaultEndpoint : EndpointRec := ⟨ConnState.idle, false⟩

/-- `UpdateStateCountersLocked` (lines 496-524): decrement the counter of
`old_state` (IDLE only when actually leaving IDLE), then increment the
counter of `new_state`.  The code asserts the decremented counter is
positive; `Nat` subtraction is faithful on all reachable states (the
counter-consistency invariant below shows the asserts hold). -/
def updateStateCountersLocked (c : Counters) (oldState newState : ConnState) :
    Counters :=
  let c1 :=
    match oldState with
    | ConnState.idle =>
        if newState ≠ ConnState.idle then { c with numIdle := c.numIdle - 1 }
        else c
    | ConnState.ready => { c with numReady := c.numReady - 1 }
    | ConnState.connecting => { c with numConnecting := c.numConnecting - 1 }
    | ConnState.transientFailure =>
        { c with numTransientFailure := c.numTransientFailure - 1 }
  match newState with
  | ConnState.idle => { c1 with numIdle := c1.numIdle + 1 }
  | ConnState.ready => { c1 with numReady := c1.numReady + 1 }
  | ConnState.connecting => { c1 with numConnecting := c1.numConnecting + 1 }
  | ConnState.transientFailure =>
      { c1 with numTransientFailure := c1.numTransientFailure + 1 }

/-- `UpdateConnectivityStateLocked` (lines 579-612): the
seen-failure-since-ready latch logic around the counter update, then the
recording of the new state in `last_connectivity_state_`.  Returns the new
counters and the new endpoint record. -/
def updateConnectivityStateLocked (c : Counters) (e : EndpointRec)
    (s : ConnState) : Counters × EndpointRec :=
  if e.latch = false then
    (updateStateCountersLocked c e.lastState s,
      ⟨s, decide (s = ConnState.transientFailure)⟩)
  else if s = ConnState.ready then
    (updateStateCountersLocked c ConnState.transientFailure s, ⟨s, false⟩)
  else
    (c, ⟨s, e.latch⟩)

/-- Spec-side rendering of the latch rule, written exactly as the four
bullet cases of the spec (§4.3) state it, for comparison with
`updateConnectivityStateLocked`. -/
def updateConnectivitySpec (c : Counters) (e : EndpointRec) (s : ConnState) :
    Counters × EndpointRec :=
  if e.latch = false ∧ s = ConnState.transientFailure then
    (updateStateCountersLocked c e.lastState ConnState.transientFailure,
      ⟨s, true⟩)
  else if e.latch = true ∧ s = ConnState.ready then
    (updateStateCountersLocked c ConnState.transientFailure ConnState.ready,
      ⟨s, false⟩)
  else if e.latch = true ∧ s ≠ ConnState.ready then
    (c, ⟨s, e.latch⟩)
  else
    (updateStateCountersLocked c e.lastState s, ⟨s, e.latch⟩)

/-- The aggregated state the policy publishes. -/
inductive AggState where
  | ready
  | connecting
  | idle
  | transientFailure
deriving DecidableEq, Repr

/-- The kind of picker published with the aggregated state. -/
inductive PickerKind where
  | ringPicker
  | queuePicker
  | transientFailurePicker
deriving DecidableEq, Repr

/-- `UpdateRingHashConnectivityStateLocked` (lines 528-573), as the pure
decision it makes from the counters: the published aggregated state, the
kind of picker published with it, and the returned bool (`true` requests a
reconnect re-attempt; returned from the IDLE and TRANSIENT_FAILURE
branches). -/
def updateRingHashConnectivityStateLocked (c : Counters) :
    AggState × PickerKind × Bool :=
  if c.numReady > 0 then
    (AggState.ready, PickerKind.ringPicker, false)
  else if c.numConnecting > 0 ∧ c.numTransientFailure < 2 then
    (AggState.connecting, PickerKind.queuePicker, false)
  else if c.numIdle > 0 ∧ c.numTransientFailure < 2 then
    (AggState.idle, PickerKind.queuePicker, true)
  else
    (AggState.transientFailure, PickerKind.transientFailurePicker, true)

/-- Spec-side rendering of the aggregation table of §4.3, written exactly
with the spec's conditions, for comparison with
`updateRingHashConnectivityStateLocked`. -/
def aggregationSpec (c : Counters) : AggState × PickerKind × Bool :=
  if 1 ≤ c.numReady then
    (AggState.ready, PickerKind.ringPicker, false)
  else if 1 ≤ c.numConnecting ∧ c.numTransientFailure < 2 then
    (AggState.connecting, PickerKind.queuePicker, false)
  else if 1 ≤ c.numIdle ∧ c.numTransientFailure < 2 then
    (AggState.idle, PickerKind.queuePicker, true)
  else
    (AggState.transientFailure, PickerKind.transientFailurePicker, true)

/-- The control-plane state: the ordered endpoint records and the state
counters of the current `RingHashSubchannelList`. -/
structure PolicyState where
  endpoints : List EndpointRec
  counters : Counters
deriving DecidableEq, Repr

/-- The observable output of one `ProcessConnectivityChangeLocked` call. -/
structure StepOutput where
  agg : AggState
  picker : PickerKind
  reresolve : Bool
  reconnectTarget : Option Nat
deriving DecidableEq, Repr

/-- `ProcessConnectivityChangeLocked` (lines 614-657) for the endpoint at
`idx` reporting `s`: request re-resolution when `s` is TRANSIENT_FAILURE,
update counters and latch via `UpdateConnectivityStateLocked`, recompute the
aggregated state, and — when the aggregation returned `true` AND the
reported state is TRANSIENT_FAILURE (line 652) — attempt to connect to the
endpoint at `(idx + 1) % num_subchannels`. -/
def processConnectivityChangeLocked (st : PolicyState) (idx : Nat)
    (s : ConnState) : PolicyState × StepOutput :=
  let e := st.endpoints.getD idx defaultEndpoint
  let step := updateConnectivityStateLocked st.counters e s
  let agg := updateRingHashConnectivityStateLocked step.1
  let reconnect :=
    if agg.2.2 = true ∧ s = ConnState.transientFailure then
      some ((idx + 1) % st.endpoints.length)
    else none
  (⟨st.endpoints.set idx step.2, step.1⟩,
    ⟨agg.1, agg.2.1, decide (s = ConnState.transientFailure), reconnect⟩)

/-- One iteration of the `StartWatchingLocked` loop (lines 482-487):
`UpdateConnectivityStateLocked(GRPC_CHANNEL_IDLE)` on the endpoint at
index `i`. -/
def startWatchStep (st : PolicyState) (i : Nat) : PolicyState :=
  let e := st.endpoints.getD i defaultEndpoint
  let step := updateConnectivityStateLocked st.counters e ConnState.idle
  ⟨st.endpoints.set i step.2, step.1⟩

/-- `StartWatchingLocked` (lines 479-494): every endpoint starts with
`last_connectivity_state_ = IDLE`, latch clear, counters zero; the loop
calls `UpdateConnectivityStateLocked(GRPC_CHANNEL_IDLE)` on each endpoint in
order. -/
def startWatchingLocked (n : Nat) : PolicyState :=
  (List.range n).foldl startWatchStep
    ⟨List.replicate n defaultEndpoint, ⟨0, 0, 0, 0⟩⟩

/-- A control-plane trace: the initial watch start on `n` endpoints followed
by a sequence of per-endpoint state callbacks `(index, reported state)`,
each processed by `ProcessConnectivityChangeLocked`. -/
def runTrace (n : Nat) (events : List (Nat × ConnState)) : PolicyState :=
  events.foldl
    (fun st ev => (processConnectivityChangeLocked st ev.1 ev.2).1)
    (startWatchingLocked n)

/-- The state an endpoint record is counted under: TRANSIENT_FAILURE while
the seen-failure-since-ready latch is set, the recorded connectivity state
otherwise (the spec's `reported_state`, §3). -/
def reported (e : EndpointRec) : ConnState :=
  if e.latch then ConnState.transientFailure else e.lastState

/-- The number of endpoints whose reported state is `s`. -/
def countSt (s : ConnState) (l : List EndpointRec) : Nat :=
  l.countP (fun e => decide (reported e = s))

/-- The counter-consistency invariant: each counter equals the population of
endpoints reported in that state. -/
def CountersTrack (st : PolicyState) : Prop :=
  st.counters.numIdle = countSt ConnState.idle st.endpoints ∧
  st.counters.numConnecting = countSt ConnState.connecting st.endpoints ∧
  st.counters.numReady = countSt ConnState.ready st.endpoints ∧
  st.counters.numTransientFailure =
    countSt ConnState.transientFailure st.endpoints

end RingHashLb

namespace RingHashLb

/-- **C3**: after every per-endpoint state transition the controller
publishes by exactly the claimed precedence — READY with a new ring picker if
`num_ready ≥ 1`; else CONNECTING with a queue-only picker if
`num_connecting ≥ 1` and `num_transient_failure < 2`; else IDLE with a
queue-only picker if `num_idle ≥ 1` and `num_transient_failure < 2`;
otherwise TRANSIENT_FAILURE with a fail picker: the decision of
`UpdateRingHashConnectivityStateLocked` equals the spec's aggregation
table on every counter vector. -/
theorem aggregation_follows_spec_precedence (c : Counters) :
    updateRingHashConnectivityStateLocked c = aggregationSpec c := rfl

/-- **C4**: for every endpoint record, counter vector, and reported new
state, the latch logic of `UpdateConnectivityStateLocked` behaves exactly as
the spec's four latch bullet cases describe (set latch and move counters
`S_old → TRANSIENT_FAILURE`; clear latch and move
`TRANSIENT_FAILURE → READY`; leave counters untouched; or move
`S_old → S_new`), and in all cases records `S_new` as the endpoint's
connectivity state. -/
theorem latch_update_matches_spec (c : Counters) (e : EndpointRec)
    (s : ConnState) :
    updateConnectivityStateLocked c e s = updateConnectivitySpec c e s ∧
    (updateConnectivityStateLocked c e s).2.lastState = s := by
  obtain ⟨ls, lat⟩ := e
  cases lat <;> cases s <;> exact ⟨rfl, rfl⟩

theorem reattempt_iff_idle_or_tf (c : Counters) :
    (updateRingHashConnectivityStateLocked c).2.2 = true ↔
      ((updateRingHashConnectivityStateLocked c).1 = AggState.idle ∨
        (updateRingHashConnectivityStateLocked c).1 =
          AggState.transientFailure) := by
  unfold updateRingHashConnectivityStateLocked
  split_ifs <;> simp

/-- **C6 counterexample**: a single endpoint in CONNECTING reports IDLE.
The aggregated state afterwards is IDLE, yet no connection attempt is
triggered on any endpoint, because line 652 requires the state the callback
reported to be TRANSIENT_FAILURE — not "regardless of which state the
callback reported". -/
theorem reconnect_skipped_on_idle_callback_counterexample :
    (processConnectivityChangeLocked
        ⟨[⟨ConnState.connecting, false⟩], ⟨0, 0, 1, 0⟩⟩ 0
        ConnState.idle).2.agg = AggState.idle ∧
    (processConnectivityChangeLocked
        ⟨[⟨ConnState.connecting, false⟩], ⟨0, 0, 1, 0⟩⟩ 0
        ConnState.idle).2.reconnectTarget = none := by
  exact ⟨rfl, rfl⟩

/-- **C6 (amended)**: after a per-endpoint state-change callback, a
connection attempt is triggered on the endpoint immediately after the one
whose callback fired (modulo the set size) exactly when the aggregated
state is IDLE or TRANSIENT_FAILURE *and* the callback reported
TRANSIENT_FAILURE; for callbacks reporting any other state no attempt is
triggered even when the aggregated state is IDLE or TRANSIENT_FAILURE. -/
theorem reconnect_next_iff_reported_tf (st : PolicyState) (idx : Nat)
    (s : ConnState) :
    (processConnectivityChangeLocked st idx s).2.reconnectTarget =
      if ((processConnectivityChangeLocked st idx s).2.agg = AggState.idle ∨
          (processConnectivityChangeLocked st idx s).2.agg =
            AggState.transientFailure) ∧
         s = ConnState.transientFailure
      then some ((idx + 1) % st.endpoints.length)
      else none := by
  have hiff := reattempt_iff_idle_or_tf
    (updateConnectivityStateLocked st.counters
      (st.endpoints.getD idx defaultEndpoint) s).1
  by_cases hs' : s = ConnState.transientFailure
  · simp only [processConnectivityChangeLocked]
    by_cases hr : (updateRingHashConnectivityStateLocked
        (updateConnectivityStateLocked st.counters
          (st.endpoints.getD idx defaultEndpoint) s).1).2.2 = true
    · rw [if_pos ⟨hr, hs'⟩, if_pos ⟨hiff.mp hr, hs'⟩]
    · rw [if_neg (fun hc => hr hc.1), if_neg (fun hc => hr (hiff.mpr hc.1))]
  · simp only [processConnectivityChangeLocked]
    rw [if_neg (fun hc => hs' hc.2), if_neg (fun hc => hs' hc.2)]

/-- The contract of the `std::sort` call at lines 331-334 with comparator
`lhs.hash < rhs.hash`: the output is a permutation of the input, ordered so
that hashes never decrease.  `std::sort` guarantees nothing further — in
particular it is not a stable sort, so the relative order of equal-hash
entries is unspecified. -/
def IsSortResult (pre post : List RingEntry) : Prop :=
  List.Perm post pre ∧ SortedByHash post

/-- Spec-side: "ties retain insertion order" — entries with any given hash
appear in the output in the same order as in the input. -/
def TiesRetainInsertionOrder (pre post : List RingEntry) : Prop :=
  ∀ h : Nat, pre.filter (fun e => decide (e.hash = h)) =
    post.filter (fun e => decide (e.hash = h))

/-- **C8 counterexample**: for the pre-sort entry sequence with two
equal-hash entries for different subchannels, the swapped sequence is a
permitted `std::sort` output (a sorted permutation), yet it does not retain
the insertion order of the equal hashes. -/
theorem sort_ties_not_retained_counterexample :
    IsSortResult [⟨5, 0, ConnState.ready⟩, ⟨5, 1, ConnState.ready⟩]
        [⟨5, 1, ConnState.ready⟩, ⟨5, 0, ConnState.ready⟩] ∧
    ¬ TiesRetainInsertionOrder [⟨5, 0, ConnState.ready⟩, ⟨5, 1, ConnState.ready⟩]
        [⟨5, 1, ConnState.ready⟩, ⟨5, 0, ConnState.ready⟩] := by
  constructor
  · refine ⟨?_, ?_⟩ <;> decide
  · intro hcon
    exact absurd (hcon 5) (by decide)

/-- **C8 (amended)**: every ring produced by the builder's sort is sorted
ascending by hash (for all `k`, `ring[k].hash ≤ ring[k+1].hash`) and is a
permutation of the emitted entries; the relative order of entries with
equal hashes is unspecified (`std::sort` is not stable). -/
theorem ring_sorted_ascending (pre post : List RingEntry)
    (hsort : IsSortResult pre post) :
    (∀ k, k + 1 < post.length →
      (entryAt post k).hash ≤ (entryAt post (k + 1)).hash) ∧
    List.Perm post pre := by
  refine ⟨?_, hsort.1⟩
  intro k hk
  exact sorted_hashAt_mono post hsort.2 (Nat.le_succ k) hk

/-- Witness for the amended C8 on a concrete sorted permutation. -/
theorem ring_sorted_ascending_witness :
    (∀ k, k + 1 < ([⟨10, 0, ConnState.ready⟩, ⟨20, 1, ConnState.ready⟩] :
        List RingEntry).length →
      (entryAt [⟨10, 0, ConnState.ready⟩, ⟨20, 1, ConnState.ready⟩] k).hash ≤
        (entryAt [⟨10, 0, ConnState.ready⟩, ⟨20, 1, ConnState.ready⟩]
          (k + 1)).hash) ∧
    List.Perm ([⟨10, 0, ConnState.ready⟩, ⟨20, 1, ConnState.ready⟩] :
        List RingEntry)
      [⟨20, 1, ConnState.ready⟩, ⟨10, 0, ConnState.ready⟩] :=
  ring_sorted_ascending [⟨20, 1, ConnState.ready⟩, ⟨10, 0, ConnState.ready⟩]
    [⟨10, 0, ConnState.ready⟩, ⟨20, 1, ConnState.ready⟩]
    (by refine ⟨?_, ?_⟩ <;> decide)

end RingHashLb

namespace RingHashLb

theorem countP_set_add (p : EndpointRec → Bool) :
    ∀ (l : List EndpointRec) (i : Nat) (x : EndpointRec), i < l.length →
      (l.set i x).countP p + (if p (l.getD i defaultEndpoint) then 1 else 0) =
        l.countP p + (if p x then 1 else 0) := by
  intro l
  induction l with
  | nil =>
    intro i x hi
    simp at hi
  | cons a t ih =>
    intro i x hi
    cases i with
    | zero =>
      have h0 : (a :: t).getD 0 defaultEndpoint = a := rfl
      have hset : (a :: t).set 0 x = x :: t := rfl
      rw [h0, hset, List.countP_cons, List.countP_cons]
      omega
    | succ j =>
      have hj : j < t.length := by simpa using hi
      have h1 : (a :: t).getD (j + 1) defaultEndpoint =
          t.getD j defaultEndpoint := rfl
      have hset : (a :: t).set (j + 1) x = a :: t.set j x := rfl
      rw [h1, hset, List.countP_cons, List.countP_cons]
      have hrec := ih j x hj
      omega

theorem countP_pos_of_getD (p : EndpointRec → Bool) :
    ∀ (l : List EndpointRec) (i : Nat), i < l.length →
      p (l.getD i defaultEndpoint) = true → 1 ≤ l.countP p := by
  intro l
  induction l with
  | nil =>
    intro i hi
    simp at hi
  | cons a t ih =>
    intro i hi hp
    cases i with
    | zero =>
      have h0 : (a :: t).getD 0 defaultEndpoint = a := rfl
      rw [h0] at hp
      simp [List.countP_cons, hp]
    | succ j =>
      have hj : j < t.length := by simpa using hi
      have h1 : (a :: t).getD (j + 1) defaultEndpoint =
          t.getD j defaultEndpoint := rfl
      rw [h1] at hp
      have := ih j hj hp
      rw [List.countP_cons]
      omega

theorem usc_track (l : List EndpointRec) (c : Counters) (idx : Nat)
    (x : EndpointRec) (a b : ConnState) (hidx : idx < l.length)
    (ha : reported (l.getD idx defaultEndpoint) = a) (hb : reported x = b)
    (hab : ¬(a = ConnState.idle ∧ b = ConnState.idle))
    (hc : CountersTrack ⟨l, c⟩) :
    CountersTrack ⟨l.set idx x, updateStateCountersLocked c a b⟩ := by
  obtain ⟨hI, hC, hR, hT⟩ := hc
  have key : ∀ t : ConnState,
      countSt t (l.set idx x) + (if a = t then 1 else 0) =
        countSt t l + (if b = t then 1 else 0) := by
    intro t
    have hk := countP_set_add (fun e => decide (reported e = t)) l idx x hidx
    simp only [decide_eq_true_eq] at hk
    rw [ha, hb] at hk
    simpa [countSt, decide_eq_true_eq] using hk
  have posa : 1 ≤ countSt a l := by
    apply countP_pos_of_getD (fun e => decide (reported e = a)) l idx hidx
    show decide (reported (l.getD idx defaultEndpoint) = a) = true
    rw [ha]
    simp
  have kI := key ConnState.idle
  have kC := key ConnState.connecting
  have kR := key ConnState.ready
  have kT := key ConnState.transientFailure
  simp only [CountersTrack] at hI hC hR hT ⊢
  cases a <;> cases b <;>
    first
      | (refine ⟨?_, ?_, ?_, ?_⟩ <;>
          (simp only [updateStateCountersLocked]
           simp at kI kC kR kT ⊢
           all_goals omega))
      | exact absurd ⟨rfl, rfl⟩ hab

end RingHashLb

namespace RingHashLb

theorem ucs_latch_false (c : Counters) (ls : ConnState) (s : ConnState) :
    updateConnectivityStateLocked c ⟨ls, false⟩ s =
      (updateStateCountersLocked c ls s,
        ⟨s, decide (s = ConnState.transientFailure)⟩) := by
  simp [updateConnectivityStateLocked]

theorem ucs_latch_true_ready (c : Counters) (ls : ConnState) :
    updateConnectivityStateLocked c ⟨ls, true⟩ ConnState.ready =
      (updateStateCountersLocked c ConnState.transientFailure ConnState.ready,
        ⟨ConnState.ready, false⟩) := by
  simp [updateConnectivityStateLocked]

theorem ucs_latch_true_not_ready (c : Counters) (ls : ConnState)
    (s : ConnState) (hs : s ≠ ConnState.ready) :
    updateConnectivityStateLocked c ⟨ls, true⟩ s = (c, ⟨s, true⟩) := by
  simp [updateConnectivityStateLocked, hs]

theorem updateConnectivityState_track (l : List EndpointRec) (c : Counters)
    (idx : Nat) (s : ConnState) (hidx : idx < l.length)
    (hchg : s ≠ (l.getD idx defaultEndpoint).lastState)
    (hc : CountersTrack ⟨l, c⟩) :
    CountersTrack
      ⟨l.set idx
          (updateConnectivityStateLocked c (l.getD idx defaultEndpoint) s).2,
        (updateConnectivityStateLocked c (l.getD idx defaultEndpoint) s).1⟩ := by
  rcases hE : l.getD idx defaultEndpoint with ⟨ls, lat⟩
  rw [hE] at hchg
  have hchg' : s ≠ ls := hchg
  cases lat with
  | false =>
    rw [ucs_latch_false]
    have hbx : reported ⟨s, decide (s = ConnState.transientFailure)⟩ = s := by
      cases s <;> rfl
    refine usc_track l c idx _ ls s hidx ?_ hbx ?_ hc
    · rw [hE]
      rfl
    · rintro ⟨h1, h2⟩
      exact hchg' (h2.trans h1.symm)
  | true =>
    by_cases hr : s = ConnState.ready
    · subst hr
      rw [ucs_latch_true_ready]
      refine usc_track l c idx _ ConnState.transientFailure ConnState.ready
        hidx ?_ rfl ?_ hc
      · rw [hE]
        rfl
      · rintro ⟨h1, _⟩
        exact absurd h1 (by decide)
    · rw [ucs_latch_true_not_ready c ls s hr]
      have hsame : ∀ t, countSt t (l.set idx ⟨s, true⟩) = countSt t l := by
        intro t
        have hk := countP_set_add (fun e => decide (reported e = t)) l idx
          ⟨s, true⟩ hidx
        simp only [decide_eq_true_eq] at hk
        rw [hE] at hk
        have h1 : reported ⟨ls, true⟩ = ConnState.transientFailure := rfl
        have h2 : reported ⟨s, true⟩ = ConnState.transientFailure := rfl
        rw [h1, h2] at hk
        have hfin : countSt t (l.set idx ⟨s, true⟩) +
            (if ConnState.transientFailure = t then 1 else 0) =
            countSt t l +
              (if ConnState.transientFailure = t then 1 else 0) := by
          simpa [countSt, decide_eq_true_eq] using hk
        omega
      obtain ⟨hI, hC, hR, hT⟩ := hc
      simp only [CountersTrack] at hI hC hR hT ⊢
      rw [hsame, hsame, hsame, hsame]
      exact ⟨hI, hC, hR, hT⟩

theorem processConnectivityChange_track (st : PolicyState) (idx : Nat)
    (s : ConnState) (hidx : idx < st.endpoints.length)
    (hchg : s ≠ (st.endpoints.getD idx defaultEndpoint).lastState)
    (hc : CountersTrack st) :
    CountersTrack (processConnectivityChangeLocked st idx s).1 := by
  obtain ⟨l, c⟩ := st
  exact updateConnectivityState_track l c idx s hidx hchg hc

end RingHashLb

namespace RingHashLb

theorem getD_replicate_default :
    ∀ (n i : Nat),
      (List.replicate n defaultEndpoint).getD i defaultEndpoint =
        defaultEndpoint := by
  intro n
  induction n with
  | zero =>
    intro i
    cases i <;> rfl
  | succ m ih =>
    intro i
    cases i with
    | zero => rfl
    | succ j => exact ih j

theorem set_replicate_default :
    ∀ (n i : Nat),
      (List.replicate n defaultEndpoint).set i defaultEndpoint =
        List.replicate n defaultEndpoint := by
  intro n
  induction n with
  | zero =>
    intro i
    rfl
  | succ m ih =>
    intro i
    cases i with
    | zero => rfl
    | succ j =>
      show defaultEndpoint ::
          (List.replicate m defaultEndpoint).set j defaultEndpoint =
        defaultEndpoint :: List.replicate m defaultEndpoint
      rw [ih j]

theorem startWatchStep_replicate (n k i : Nat) :
    startWatchStep ⟨List.replicate n defaultEndpoint, ⟨k, 0, 0, 0⟩⟩ i =
      ⟨List.replicate n defaultEndpoint, ⟨k + 1, 0, 0, 0⟩⟩ := by
  simp only [startWatchStep]
  rw [getD_replicate_default]
  have hupd : updateConnectivityStateLocked ⟨k, 0, 0, 0⟩ defaultEndpoint
      ConnState.idle = (⟨k + 1, 0, 0, 0⟩, defaultEndpoint) := rfl
  rw [hupd]
  simp [set_replicate_default]

theorem startWatching_fold (n : Nat) :
    ∀ (is' : List Nat) (k : Nat),
      List.foldl startWatchStep
        ⟨List.replicate n defaultEndpoint, ⟨k, 0, 0, 0⟩⟩ is' =
      ⟨List.replicate n defaultEndpoint, ⟨k + is'.length, 0, 0, 0⟩⟩ := by
  intro is'
  induction is' with
  | nil =>
    intro k
    rfl
  | cons i t ih =>
    intro k
    rw [List.foldl_cons, startWatchStep_replicate, ih (k + 1)]
    have harith : k + 1 + t.length = k + (i :: t).length := by
      simp [List.length_cons]
      omega
    rw [harith]

/-- After `StartWatchingLocked`, every endpoint is recorded IDLE with a
clear latch and the counters read `num_idle = n`, all else zero
(the idle-to-idle `UpdateStateCountersLocked` call of line 485 increments
`num_idle_` once per endpoint). -/
theorem startWatching_closed (n : Nat) :
    startWatchingLocked n =
      ⟨List.replicate n defaultEndpoint, ⟨n, 0, 0, 0⟩⟩ := by
  unfold startWatchingLocked
  rw [startWatching_fold n (List.range n) 0]
  simp

theorem countSt_replicate_default (t : ConnState) (n : Nat) :
    countSt t (List.replicate n defaultEndpoint) =
      if t = ConnState.idle then n else 0 := by
  induction n with
  | zero => cases t <;> rfl
  | succ m ih =>
    show countSt t (defaultEndpoint :: List.replicate m defaultEndpoint) = _
    rw [countSt, List.countP_cons]
    rw [countSt] at ih
    rw [ih]
    have hrep : reported defaultEndpoint = ConnState.idle := rfl
    cases t <;> simp [hrep]

theorem startWatching_track (n : Nat) :
    CountersTrack (startWatchingLocked n) := by
  rw [startWatching_closed]
  refine ⟨?_, ?_, ?_, ?_⟩ <;> simp [countSt_replicate_default]

theorem countSt_partition (l : List EndpointRec) :
    countSt ConnState.idle l + countSt ConnState.connecting l +
      countSt ConnState.ready l + countSt ConnState.transientFailure l =
      l.length := by
  induction l with
  | nil => rfl
  | cons e t ih =>
    simp only [countSt, List.countP_cons, List.length_cons] at *
    cases hre : reported e <;> simp [hre] <;> omega

end RingHashLb

namespace RingHashLb

/-- The connectivity-watcher interface contract under which the control
plane runs (§6 of the spec: `start_connectivity_watch` delivers state
*changes*): each callback addresses an existing endpoint and reports a state
different from that endpoint's currently recorded
`last_connectivity_state_`. -/
def validEvents : PolicyState → List (Nat × ConnState) → Bool
  | _, [] => true
  | st, ev :: rest =>
    decide (ev.1 < st.endpoints.length) &&
    decide (ev.2 ≠ (st.endpoints.getD ev.1 defaultEndpoint).lastState) &&
    validEvents (processConnectivityChangeLocked st ev.1 ev.2).1 rest

theorem foldTrace_track :
    ∀ (events : List (Nat × ConnState)) (st : PolicyState),
      CountersTrack st → validEvents st events = true →
      CountersTrack
        (events.foldl
          (fun st ev => (processConnectivityChangeLocked st ev.1 ev.2).1)
          st) := by
  intro events
  induction events with
  | nil =>
    intro st hc _
    exact hc
  | cons ev t ih =>
    intro st hc hv
    simp only [validEvents, Bool.and_eq_true, decide_eq_true_eq] at hv
    rw [List.foldl_cons]
    exact ih _ (processConnectivityChange_track st ev.1 ev.2 hv.1.1 hv.1.2 hc)
      hv.2

/-- **C7**: after every control-plane event — the initial watch start
(`events = []`) and every subsequent state callback (callbacks obey the
watcher interface contract captured by `validEvents`: an in-range endpoint
index and a state different from the endpoint's recorded one) — each of the
four counters `num_idle`, `num_connecting`, `num_ready`,
`num_transient_failure` equals the number of endpoints whose reported state
is that state, and their sum equals the number of endpoints. -/
theorem counters_consistent_after_every_event (n : Nat)
    (events : List (Nat × ConnState))
    (hv : validEvents (startWatchingLocked n) events = true) :
    CountersTrack (runTrace n events) ∧
    (runTrace n events).counters.numIdle +
      (runTrace n events).counters.numConnecting +
      (runTrace n events).counters.numReady +
      (runTrace n events).counters.numTransientFailure =
      (runTrace n events).endpoints.length := by
  have htr : CountersTrack (runTrace n events) :=
    foldTrace_track events (startWatchingLocked n) (startWatching_track n) hv
  refine ⟨htr, ?_⟩
  obtain ⟨hI, hC, hR, hT⟩ := htr
  rw [hI, hC, hR, hT]
  exact countSt_partition _

/-- Witness for C7 on a concrete two-endpoint trace: endpoint 0 goes
CONNECTING, then TRANSIENT_FAILURE (setting its latch), endpoint 1 goes
CONNECTING, endpoint 0 recovers to READY. -/
theorem counters_consistent_after_every_event_witness :
    CountersTrack (runTrace 2
      [(0, ConnState.connecting), (0, ConnState.transientFailure),
        (1, ConnState.connecting), (0, ConnState.ready)]) ∧
    (runTrace 2
      [(0, ConnState.connecting), (0, ConnState.transientFailure),
        (1, ConnState.connecting), (0, ConnState.ready)]).counters.numIdle +
      (runTrace 2
        [(0, ConnState.connecting), (0, ConnState.transientFailure),
          (1, ConnState.connecting),
          (0, ConnState.ready)]).counters.numConnecting +
      (runTrace 2
        [(0, ConnState.connecting), (0, ConnState.transientFailure),
          (1, ConnState.connecting),
          (0, ConnState.ready)]).counters.numReady +
      (runTrace 2
        [(0, ConnState.connecting), (0, ConnState.transientFailure),
          (1, ConnState.connecting),
          (0, ConnState.ready)]).counters.numTransientFailure =
      (runTrace 2
        [(0, ConnState.connecting), (0, ConnState.transientFailure),
          (1, ConnState.connecting),
          (0, ConnState.ready)]).endpoints.length :=
  counters_consistent_after_every_event 2
    [(0, ConnState.connecting), (0, ConnState.transientFailure),
      (1, ConnState.connecting), (0, ConnState.ready)] (by decide)

end RingHashLb
